import Mathlib

/-!
Verification of the query-execution context and traced row-iteration layer
of an embeddable SQL engine (session variables, execution contexts, tracing
span iterators, the Values plan operator, and the backup-engine registry).

Go slices, maps and interface values are embedded shallowly:
maps become association lists with a write-wins update (`mapSet`) and a
first-match lookup (`mapLookup`); `interface{}` values become the tagged
union `GoValue`; durations become `Nat`; errors become `String` messages.
-/

/-- SQL type tags used by the session layer (`sql.Null`, `sql.Int32`,
`sql.Int64`, `sql.Text`). -/
inductive SqlType where
  | Null
  | Int32
  | Int64
  | Text
deriving DecidableEq, Repr

/-- Dynamically typed Go values stored in the session (`interface{}`).
The constructor records the Go dynamic type of the stored value: an
untyped integer constant stored into an `interface{}` becomes a Go `int`,
which is distinct from `int32` and `int64`. -/
inductive GoValue where
  | nil
  | int (i : Int)
  | int32 (i : Int)
  | int64 (i : Int)
  | str (s : String)
deriving DecidableEq, Repr

/-- `sql.TypedValue`: a value along with its declared SQL type. -/
structure TypedValue where
  Typ : SqlType
  Value : GoValue
deriving DecidableEq, Repr

/-- Go map indexing `m[key]` (comma-ok form): first matching key. -/
def mapLookup {α : Type} : List (String × α) → String → Option α
  | [], _ => none
  | (k, v) :: rest, key => if k = key then some v else mapLookup rest key

/-- Go map assignment `m[key] = val`: overwrite the binding if the key is
present, otherwise add it. -/
def mapSet {α : Type} : List (String × α) → String → α → List (String × α)
  | [], key, val => [(key, val)]
  | (k, v) :: rest, key, val =>
      if k = key then (key, val) :: rest else (k, v) :: mapSet rest key val

theorem mapLookup_mapSet_self {α : Type} (m : List (String × α)) (key : String) (val : α) :
    mapLookup (mapSet m key val) key = some val := by
  induction m with
  | nil => simp [mapSet, mapLookup]
  | cons p rest ih =>
      obtain ⟨k, v⟩ := p
      by_cases hk : k = key
      · simp [mapSet, hk, mapLookup]
      · simp [mapSet, hk, mapLookup, ih]

theorem mapLookup_mapSet_ne {α : Type} (m : List (String × α)) (key key' : String) (val : α)
    (h : key ≠ key') : mapLookup (mapSet m key val) key' = mapLookup m key' := by
  induction m with
  | nil => simp [mapSet, mapLookup, h]
  | cons p rest ih =>
      obtain ⟨k, v⟩ := p
      by_cases hk : k = key
      · subst hk
        simp [mapSet, mapLookup, h]
      · by_cases hk' : k = key'
        · subst hk'
          simp [mapSet, hk, mapLookup, Ne.symm h]
        · simp [mapSet, hk, mapLookup, hk', ih]

/-- `sql.BaseSession`: connection id, server address, user, and the
typed-value configuration store. -/
structure BaseSession where
  id : Nat
  addr : String
  user : String
  config : List (String × TypedValue)
deriving DecidableEq, Repr

/-- `BaseSession.Set`: stores or overwrites a session variable. -/
def BaseSession.Set (s : BaseSession) (key : String) (typ : SqlType) (value : GoValue) :
    BaseSession :=
  { s with config := mapSet s.config key ⟨typ, value⟩ }

/-- `BaseSession.Get`: returns the stored (type, value) pair, or
(`Null`, nil) when the key is absent. -/
def BaseSession.Get (s : BaseSession) (key : String) : SqlType × GoValue :=
  match mapLookup s.config key with
  | none => (SqlType.Null, GoValue.nil)
  | some v => (v.Typ, v.Value)

/-- `defaultSessionConfig`: the default session variables.  The local time
zone name (`time.Local.String()`) is an environment input, passed as
`localZone`.  `math.MaxInt32` is an untyped Go constant, so it is stored
with dynamic type `int`. -/
def defaultSessionConfig (localZone : String) : List (String × TypedValue) :=
  [ ("auto_increment_increment", ⟨SqlType.Int64, GoValue.int64 1⟩),
    ("time_zone", ⟨SqlType.Text, GoValue.str localZone⟩),
    ("system_time_zone", ⟨SqlType.Text, GoValue.str localZone⟩),
    ("max_allowed_packet", ⟨SqlType.Int32, GoValue.int 2147483647⟩),
    ("sql_mode", ⟨SqlType.Text, GoValue.str ""⟩),
    ("gtid_mode", ⟨SqlType.Int32, GoValue.int32 0⟩),
    ("ndbinfo_version", ⟨SqlType.Text, GoValue.str ""⟩) ]

/-- `sql.NewSession`: a session with the given address, user and id and
the default configuration. -/
def NewSession (localZone : String) (address : String) (user : String) (id : Nat) :
    BaseSession :=
  { id := id, addr := address, user := user, config := defaultSessionConfig localZone }

/-- `sql.NewBaseSession`: an empty session (zero-valued id, address and
user) with the default configuration. -/
def NewBaseSession (localZone : String) : BaseSession :=
  { id := 0, addr := "", user := "", config := defaultSessionConfig localZone }

/-- A row (`sql.Row`): an ordered list of values; `sql.NewRow` collects
the given values. -/
def Row : Type := List GoValue
deriving DecidableEq, Repr

/-- `sql.Expression` as consumed by the Values operator: evaluation
against a session and an optional input row, type and nullability
metadata, the textual form (`String()`), and the optional `sql.Nameable`
capability (`some` when the expression implements it). -/
structure Expression where
  nameable : Option String
  stringRep : String
  typ : SqlType
  nullable : Bool
  eval : BaseSession → Option Row → Except String GoValue

/-- `sql.Column`: output column metadata. -/
structure Column where
  name : String
  typ : SqlType
  nullable : Bool
deriving DecidableEq, Repr

/-- `plan.Values`: a set of tuples of expressions. -/
structure Values where
  ExpressionTuples : List (List Expression)

/-- The column list computed by the loop inside `Values.Schema` from the
first tuple: name from the `Nameable` capability when present, otherwise
the textual form; type and nullability from the expression's metadata. -/
def Values.computedSchema (p : Values) : List Column :=
  match p.ExpressionTuples with
  | [] => []
  | exprs :: _ =>
      exprs.map (fun e =>
        let name :=
          match e.nameable with
          | some n => n
          | none => e.stringRep
        Column.mk name e.typ e.nullable)

/-- `Values.Schema`, embedded faithfully: when there are no tuples it
returns the nil schema; otherwise it computes the column list from the
first tuple and then nevertheless executes `return nil`, discarding the
computed list. -/
def Values.Schema (p : Values) : List Column :=
  match p.ExpressionTuples with
  | [] => []
  | exprs :: _ =>
      let _s :=
        exprs.map (fun e =>
          let name :=
            match e.nameable with
            | some n => n
            | none => e.stringRep
          Column.mk name e.typ e.nullable)
      []

/-- The inner loop of `Values.RowIter`: evaluate one tuple's expressions
in order against the session with no input row, stopping at the first
error. -/
def evalTuple (session : BaseSession) : List Expression → Except String Row
  | [] => Except.ok []
  | e :: rest =>
      match e.eval session none with
      | Except.error err => Except.error err
      | Except.ok v =>
          match evalTuple session rest with
          | Except.error err => Except.error err
          | Except.ok vs => Except.ok (v :: vs)

/-- The outer loop of `Values.RowIter`: materialize one row per tuple, in
tuple order, stopping at the first evaluation error. -/
def evalTuples (session : BaseSession) : List (List Expression) → Except String (List Row)
  | [] => Except.ok []
  | t :: ts =>
      match evalTuple session t with
      | Except.error err => Except.error err
      | Except.ok vals =>
          match evalTuples session ts with
          | Except.error err => Except.error err
          | Except.ok rows => Except.ok (vals :: rows)

/-- `Values.RowIter`: evaluates every expression in every tuple and
returns the finite row sequence the produced iterator yields, or the
first evaluation error. -/
def Values.RowIter (p : Values) (session : BaseSession) : Except String (List Row) :=
  evalTuples session p.ExpressionTuples

/-- The evaluation error of one expression, if any. -/
def exprError (session : BaseSession) (e : Expression) : Option String :=
  match e.eval session none with
  | Except.error err => some err
  | Except.ok _ => none

/-- First evaluation error within one tuple, scanning in expression order. -/
def firstExprError (session : BaseSession) : List Expression → Option String
  | [] => none
  | e :: rest =>
      match exprError session e with
      | some err => some err
      | none => firstExprError session rest

/-- First evaluation error across all tuples, scanning tuples in order and
each tuple's expressions in order. -/
def firstEvalError (session : BaseSession) : List (List Expression) → Option String
  | [] => none
  | t :: ts =>
      match firstExprError session t with
      | some err => some err
      | none => firstEvalError session ts

/-- The value an expression evaluates to, defaulting to nil on error
(the default is never exercised when no evaluation error exists). -/
def evalValueD (session : BaseSession) (e : Expression) : GoValue :=
  match e.eval session none with
  | Except.ok v => v
  | Except.error _ => GoValue.nil

/-- The row set the spec describes: one row per tuple, in tuple order,
each row holding that tuple's expression values. -/
def expectedRows (p : Values) (session : BaseSession) : List Row :=
  p.ExpressionTuples.map (fun t => t.map (evalValueD session))

theorem evalTuple_eq (session : BaseSession) (t : List Expression) :
    evalTuple session t =
      match firstExprError session t with
      | some err => Except.error err
      | none => Except.ok (t.map (evalValueD session)) := by
  induction t with
  | nil => simp [evalTuple, firstExprError]
  | cons e rest ih =>
      cases he : e.eval session none with
      | error err =>
          simp [evalTuple, firstExprError, exprError, he]
      | ok v =>
          simp only [evalTuple, firstExprError, exprError, he, ih, List.map_cons, evalValueD]
          cases firstExprError session rest <;> simp

theorem evalTuples_eq (session : BaseSession) (ts : List (List Expression)) :
    evalTuples session ts =
      match firstEvalError session ts with
      | some err => Except.error err
      | none => Except.ok (ts.map (fun t => t.map (evalValueD session))) := by
  induction ts with
  | nil => simp [evalTuples, firstEvalError]
  | cons t rest ih =>
      simp only [evalTuples, firstEvalError, evalTuple_eq, ih]
      cases firstExprError session t with
      | some err => simp
      | none =>
          cases firstEvalError session rest <;> simp

/-- One outcome of the wrapped iterator's `Next`: a row together with the
elapsed time the surrounding measurement observes for this call, the
end-of-data signal (`io.EOF`), or another error. -/
inductive Outcome where
  | row (r : Row) (elapsed : Nat)
  | eof
  | err (msg : String)

/-- A finalization record written to the span by `FinishWithOptions`:
either the success fields (rows, total, max, min, avg) or the error
message. -/
inductive SpanRecord where
  | success (rows total mx mn avg : Nat)
  | failure (msg : String)
deriving DecidableEq, Repr

/-- The span as observed by a recording tracer: the list of finalization
records written to it. -/
structure RecSpan where
  records : List SpanRecord
deriving DecidableEq, Repr

/-- `sql.spanIter`: the traced row iterator.  The wrapped iterator is a
script mapping the index of the `Next` call to its outcome; `pos` counts
the underlying `Next` calls made so far. -/
structure SpanIter where
  script : Nat → Outcome
  pos : Nat
  span : RecSpan
  count : Nat
  max : Nat
  min : Nat
  total : Nat
  done : Bool

/-- `spanIter.updateTimings`: fold one elapsed duration into max, min and
total.  A current `min` of zero is treated as uninitialized. -/
def SpanIter.updateTimings (i : SpanIter) (elapsed : Nat) : SpanIter :=
  let i1 := if i.max < elapsed then { i with max := elapsed } else i
  let i2 := if i1.min > elapsed || i1.min == 0 then { i1 with min := elapsed } else i1
  { i2 with total := i2.total + elapsed }

/-- `spanIter.finish`: write the success record (rows, total, max, min,
avg with integer division, zero when no rows) and set the done flag. -/
def SpanIter.finish (i : SpanIter) : SpanIter :=
  let avg := if i.count > 0 then i.total / i.count else 0
  { i with
      span := ⟨i.span.records ++ [SpanRecord.success i.count i.total i.max i.min avg]⟩,
      done := true }

/-- `spanIter.finishWithError`: write the error record and set the done
flag. -/
def SpanIter.finishWithError (i : SpanIter) (msg : String) : SpanIter :=
  { i with span := ⟨i.span.records ++ [SpanRecord.failure msg]⟩, done := true }

/-- The result a `spanIter.Next` call returns to its caller. -/
inductive NextResult where
  | row (r : Row)
  | eof
  | err (msg : String)
deriving DecidableEq, Repr

/-- `spanIter.Next`: delegate to the wrapped iterator; on end-of-data run
`finish`, on another error run `finishWithError`, on a row increment the
count and update the timings before returning the row. -/
def SpanIter.next (i0 : SpanIter) : SpanIter × NextResult :=
  let outcome := i0.script i0.pos
  let i := { i0 with pos := i0.pos + 1 }
  match outcome with
  | Outcome.eof => (i.finish, NextResult.eof)
  | Outcome.err m => (i.finishWithError m, NextResult.err m)
  | Outcome.row r elapsed =>
      let i1 := { i with count := i.count + 1 }
      (i1.updateTimings elapsed, NextResult.row r)

/-- `spanIter.Close`: run `finish` only when the done flag is not yet set,
then delegate the close to the wrapped iterator. -/
def SpanIter.close (i : SpanIter) : SpanIter :=
  if i.done then i else i.finish

/-- `sql.NewSpanIter` over a fresh span: zero statistics, done flag
cleared, no finalization records yet. -/
def newSpanIter (script : Nat → Outcome) : SpanIter :=
  { script := script, pos := 0, span := ⟨[]⟩, count := 0,
    max := 0, min := 0, total := 0, done := false }

/-- One external call on the traced iterator. -/
inductive SCall where
  | next
  | close
deriving DecidableEq, Repr

/-- Run a sequence of `Next`/`Close` calls, keeping only the iterator
state. -/
def runCalls (i : SpanIter) : List SCall → SpanIter
  | [] => i
  | SCall.next :: rest => runCalls (i.next).1 rest
  | SCall.close :: rest => runCalls i.close rest

/-- Well-formed call sequences: once a `Next` has hit end-of-data or an
error, or a `Close` has been issued, no further `Next` call is made.
`pos` tracks the wrapped iterator's position and `stopped` whether such a
terminal event has occurred. -/
def wfCalls (script : Nat → Outcome) : Nat → Bool → List SCall → Bool
  | _, _, [] => true
  | pos, stopped, SCall.next :: rest =>
      !stopped &&
        (match script pos with
         | Outcome.row _ _ => wfCalls script (pos + 1) false rest
         | _ => wfCalls script (pos + 1) true rest)
  | pos, _, SCall.close :: rest => wfCalls script pos true rest

theorem updateTimings_span (i : SpanIter) (e : Nat) :
    (i.updateTimings e).span = i.span := by
  simp only [SpanIter.updateTimings]
  split <;> split <;> rfl

theorem updateTimings_done (i : SpanIter) (e : Nat) :
    (i.updateTimings e).done = i.done := by
  simp only [SpanIter.updateTimings]
  split <;> split <;> rfl

theorem updateTimings_script (i : SpanIter) (e : Nat) :
    (i.updateTimings e).script = i.script := by
  simp only [SpanIter.updateTimings]
  split <;> split <;> rfl

theorem updateTimings_pos (i : SpanIter) (e : Nat) :
    (i.updateTimings e).pos = i.pos := by
  simp only [SpanIter.updateTimings]
  split <;> split <;> rfl

theorem updateTimings_count (i : SpanIter) (e : Nat) :
    (i.updateTimings e).count = i.count := by
  simp only [SpanIter.updateTimings]
  split <;> split <;> rfl

theorem updateTimings_max (i : SpanIter) (e : Nat) :
    (i.updateTimings e).max = if i.max < e then e else i.max := by
  simp only [SpanIter.updateTimings]
  split <;> split <;> rfl

theorem updateTimings_min (i : SpanIter) (e : Nat) :
    (i.updateTimings e).min = if i.min > e || i.min == 0 then e else i.min := by
  simp only [SpanIter.updateTimings]
  split <;> rename_i h1 <;> split <;> rename_i h2 <;> simp_all

theorem updateTimings_total (i : SpanIter) (e : Nat) :
    (i.updateTimings e).total = i.total + e := by
  simp only [SpanIter.updateTimings]
  split <;> split <;> rfl

theorem runCalls_records_le (calls : List SCall) :
    ∀ (i : SpanIter) (stopped : Bool),
      wfCalls i.script i.pos stopped calls = true →
      i.span.records.length ≤ 1 →
      (i.done = false → i.span.records.length = 0) →
      (stopped = false → i.done = false) →
      (runCalls i calls).span.records.length ≤ 1 := by
  induction calls with
  | nil => intro i stopped _ hle _ _; exact hle
  | cons c rest ih =>
      intro i stopped hwf hle hz hstop
      cases c with
      | next =>
          simp only [wfCalls, Bool.and_eq_true, Bool.not_eq_true'] at hwf
          obtain ⟨hstopped, hwf⟩ := hwf
          have hdone : i.done = false := hstop hstopped
          have hzero : i.span.records.length = 0 := hz hdone
          simp only [runCalls, SpanIter.next]
          cases hs : i.script i.pos with
          | row r e =>
              rw [hs] at hwf
              refine ih _ false ?_ ?_ ?_ ?_
              · simpa [updateTimings_script, updateTimings_pos] using hwf
              · simpa [updateTimings_span] using hle
              · intro _; simpa [updateTimings_span] using hzero
              · intro _; simpa [updateTimings_done] using hdone
          | eof =>
              rw [hs] at hwf
              refine ih _ true ?_ ?_ ?_ ?_
              · simpa [SpanIter.finish] using hwf
              · simp [SpanIter.finish, hzero]
              · intro hcontra; simp [SpanIter.finish] at hcontra
              · intro hcontra; exact absurd hcontra (by simp)
          | err m =>
              rw [hs] at hwf
              refine ih _ true ?_ ?_ ?_ ?_
              · simpa [SpanIter.finishWithError] using hwf
              · simp [SpanIter.finishWithError, hzero]
              · intro hcontra; simp [SpanIter.finishWithError] at hcontra
              · intro hcontra; exact absurd hcontra (by simp)
      | close =>
          simp only [wfCalls] at hwf
          simp only [runCalls, SpanIter.close]
          cases hdone : i.done with
          | true =>
              simp only [Bool.false_eq_true, if_true]
              refine ih _ true ?_ hle ?_ ?_
              · exact hwf
              · intro hcontra; rw [hdone] at hcontra; exact absurd hcontra (by simp)
              · intro hcontra; exact absurd hcontra (by simp)
          | false =>
              have hzero : i.span.records.length = 0 := hz hdone
              simp only [Bool.false_eq_true, if_false]
              refine ih _ true ?_ ?_ ?_ ?_
              · simpa [SpanIter.finish] using hwf
              · simp [SpanIter.finish, hzero]
              · intro hcontra; simp [SpanIter.finish] at hcontra
              · intro hcontra; exact absurd hcontra (by simp)

/-- Apply `Next` a number of times, keeping only the state. -/
def driveAll (i : SpanIter) : Nat → SpanIter
  | 0 => i
  | n + 1 => driveAll (i.next).1 n

/-- The wrapped-iterator script of an iterator that yields the given rows
(with their observed elapsed times) in order and then end-of-data. -/
def scriptOfList (es : List (Row × Nat)) : Nat → Outcome := fun n =>
  match es[n]? with
  | some p => Outcome.row p.1 p.2
  | none => Outcome.eof

/-- Total elapsed time folded from a starting value. -/
def sumFold (t : Nat) (es : List (Row × Nat)) : Nat :=
  es.foldl (fun a p => a + p.2) t

/-- Maximum elapsed time folded from a starting value, mirroring the
`max < elapsed` update. -/
def maxFold (m : Nat) (es : List (Row × Nat)) : Nat :=
  es.foldl (fun a p => if a < p.2 then p.2 else a) m

/-- Minimum elapsed time folded from a starting value, mirroring the
`min > elapsed || min == 0` update. -/
def minFold (m : Nat) (es : List (Row × Nat)) : Nat :=
  es.foldl (fun a p => if a > p.2 || a == 0 then p.2 else a) m

/-- The iterator state after consuming the given rows: position and count
advanced, statistics folded, everything else unchanged. -/
def stepAll (i : SpanIter) (es : List (Row × Nat)) : SpanIter :=
  { i with
      pos := i.pos + es.length,
      count := i.count + es.length,
      total := sumFold i.total es,
      max := maxFold i.max es,
      min := minFold i.min es }

theorem updateTimings_eq (i : SpanIter) (e : Nat) :
    i.updateTimings e =
      { i with
          max := if i.max < e then e else i.max,
          min := if i.min > e || i.min == 0 then e else i.min,
          total := i.total + e } := by
  cases i
  simp only [SpanIter.updateTimings]
  split <;> split <;> simp_all

theorem stepAll_cons (i : SpanIter) (p : Row × Nat) (rest : List (Row × Nat)) :
    stepAll (SpanIter.updateTimings { i with pos := i.pos + 1, count := i.count + 1 } p.2) rest
      = stepAll i (p :: rest) := by
  rw [updateTimings_eq]
  cases i with
  | mk sc pos span count mx mn tot done =>
      simp only [stepAll, SpanIter.mk.injEq, maxFold, minFold, sumFold, List.foldl_cons,
        List.length_cons]
      exact ⟨trivial, by omega, trivial, by omega, trivial, trivial, trivial, trivial⟩

theorem driveAll_succ_right (i : SpanIter) (n : Nat) :
    driveAll i (n + 1) = ((driveAll i n).next).1 := by
  induction n generalizing i with
  | zero => rfl
  | succ n ih =>
      show driveAll (i.next).1 (n + 1) = ((driveAll i (n + 1)).next).1
      rw [ih]
      rfl

theorem drive_rows :
    ∀ (es : List (Row × Nat)) (i : SpanIter),
      (∀ k, k < es.length → i.script (i.pos + k) = scriptOfList es k) →
      driveAll i es.length = stepAll i es := by
  intro es
  induction es with
  | nil =>
      intro i _
      simp [driveAll, stepAll, sumFold, maxFold, minFold]
  | cons p rest ih =>
      intro i hscript
      have h0 : i.script i.pos = Outcome.row p.1 p.2 := by
        have := hscript 0 (by simp)
        simpa [scriptOfList] using this
      show driveAll (i.next).1 (rest.length) = stepAll i (p :: rest)
      have hnext : (i.next).1 =
          SpanIter.updateTimings
            { i with pos := i.pos + 1, count := i.count + 1 } p.2 := by
        simp [SpanIter.next, h0]
      rw [hnext]
      set i' := SpanIter.updateTimings { i with pos := i.pos + 1, count := i.count + 1 } p.2
        with hi'
      have hscript' : ∀ k, k < rest.length → i'.script (i'.pos + k) = scriptOfList rest k := by
        intro k hk
        have h1 : i'.script = i.script := by rw [hi']; exact updateTimings_script _ _
        have h2 : i'.pos = i.pos + 1 := by rw [hi']; exact updateTimings_pos _ _
        rw [h1, h2]
        have := hscript (k + 1) (by simpa using Nat.succ_lt_succ hk)
        calc i.script (i.pos + 1 + k) = i.script (i.pos + (k + 1)) := by ring_nf
          _ = scriptOfList (p :: rest) (k + 1) := this
          _ = scriptOfList rest k := by simp [scriptOfList]
      rw [ih i' hscript']
      rw [hi']
      exact stepAll_cons i p rest

theorem drive_rows_eof (es : List (Row × Nat)) (i : SpanIter)
    (hscript : ∀ k, k < es.length → i.script (i.pos + k) = scriptOfList es k)
    (heof : i.script (i.pos + es.length) = Outcome.eof) :
    driveAll i (es.length + 1) =
      SpanIter.finish { stepAll i es with pos := i.pos + es.length + 1 } := by
  rw [driveAll_succ_right, drive_rows es i hscript]
  have hsc : (stepAll i es).script = i.script := rfl
  have hpos : (stepAll i es).pos = i.pos + es.length := rfl
  simp only [SpanIter.next, hsc, hpos, heof]

theorem minFold_bounds (es : List (Row × Nat)) :
    ∀ m, 0 < m → (∀ p ∈ es, 0 < p.2) →
      minFold m es ≤ m ∧ (∀ p ∈ es, minFold m es ≤ p.2) ∧ 0 < minFold m es := by
  induction es with
  | nil =>
      intro m hm _
      exact ⟨Nat.le_refl m, by simp, hm⟩
  | cons p rest ih =>
      intro m hm hpos
      have hp : 0 < p.2 := hpos p (by simp)
      have hstep : minFold m (p :: rest) = minFold (if m > p.2 || m == 0 then p.2 else m) rest :=
        rfl
      have hm' : 0 < (if m > p.2 || m == 0 then p.2 else m) := by
        split
        · exact hp
        · exact hm
      have hle : (if m > p.2 || m == 0 then p.2 else m) ≤ m ∧
          (if m > p.2 || m == 0 then p.2 else m) ≤ p.2 := by
        split <;> rename_i h <;> simp only [Bool.or_eq_true, decide_eq_true_eq, beq_iff_eq,
          not_or] at h <;> omega
      obtain ⟨h1, h2, h3⟩ := ih _ hm' (fun q hq => hpos q (List.mem_cons_of_mem p hq))
      refine ⟨hstep ▸ Nat.le_trans h1 hle.1, ?_, hstep ▸ h3⟩
      intro q hq
      rcases List.mem_cons.mp hq with h | h
      · subst h
        exact hstep ▸ Nat.le_trans h1 hle.2
      · exact hstep ▸ h2 q h

theorem minFold_zero_cons (p : Row × Nat) (rest : List (Row × Nat)) :
    minFold 0 (p :: rest) = minFold p.2 rest := by
  simp [minFold]

theorem maxFold_bounds (es : List (Row × Nat)) :
    ∀ m, m ≤ maxFold m es ∧ (∀ p ∈ es, p.2 ≤ maxFold m es) := by
  induction es with
  | nil =>
      intro m
      exact ⟨Nat.le_refl m, by simp⟩
  | cons p rest ih =>
      intro m
      have hstep : maxFold m (p :: rest) = maxFold (if m < p.2 then p.2 else m) rest := rfl
      have hge : m ≤ (if m < p.2 then p.2 else m) ∧ p.2 ≤ (if m < p.2 then p.2 else m) := by
        split <;> rename_i h <;> omega
      obtain ⟨h1, h2⟩ := ih (if m < p.2 then p.2 else m)
      refine ⟨hstep ▸ Nat.le_trans hge.1 h1, ?_⟩
      intro q hq
      rcases List.mem_cons.mp hq with h | h
      · subst h
        exact hstep ▸ Nat.le_trans hge.2 h1
      · exact hstep ▸ h2 q h

theorem sumFold_lower (es : List (Row × Nat)) (c : Nat) (hc : ∀ p ∈ es, c ≤ p.2) :
    ∀ t, t + c * es.length ≤ sumFold t es := by
  induction es with
  | nil => intro t; simp [sumFold]
  | cons p rest ih =>
      intro t
      have hp : c ≤ p.2 := hc p (by simp)
      have hrest := ih (fun q hq => hc q (List.mem_cons_of_mem p hq)) (t + p.2)
      have hstep : sumFold t (p :: rest) = sumFold (t + p.2) rest := rfl
      rw [hstep]
      calc t + c * (p :: rest).length = t + c * rest.length + c := by
            simp [List.length_cons]; ring
        _ ≤ t + p.2 + c * rest.length := by omega
        _ ≤ sumFold (t + p.2) rest := hrest

theorem sumFold_upper (es : List (Row × Nat)) (c : Nat) (hc : ∀ p ∈ es, p.2 ≤ c) :
    ∀ t, sumFold t es ≤ t + c * es.length := by
  induction es with
  | nil => intro t; simp [sumFold]
  | cons p rest ih =>
      intro t
      have hp : p.2 ≤ c := hc p (by simp)
      have hrest := ih (fun q hq => hc q (List.mem_cons_of_mem p hq)) (t + p.2)
      have hstep : sumFold t (p :: rest) = sumFold (t + p.2) rest := rfl
      rw [hstep]
      calc sumFold (t + p.2) rest ≤ t + p.2 + c * rest.length := hrest
        _ ≤ t + c * (p :: rest).length := by simp [List.length_cons]; nlinarith

/-- A heap of Go maps holding session configurations: a reference is an
index into the list.  This models the aliasing of Go map values, which
the pure association lists above cannot express. -/
abbrev ConfigHeap : Type := List (List (String × TypedValue))

/-- Dereference a map reference. -/
def heapRead (h : ConfigHeap) (r : Nat) : List (String × TypedValue) :=
  (h[r]?).getD []

/-- Mutate the map behind a reference in place. -/
def heapWrite (h : ConfigHeap) (r : Nat) (m : List (String × TypedValue)) : ConfigHeap :=
  h.set r m

/-- `BaseSession.Set` at the heap level: mutates the session's config map
in place through its reference. -/
def heapSessionSet (h : ConfigHeap) (ref : Nat) (key : String) (typ : SqlType)
    (value : GoValue) : ConfigHeap :=
  heapWrite h ref (mapSet (heapRead h ref) key ⟨typ, value⟩)

/-- The copy loop of `BaseSession.GetAll`: `m := make(map[...]); for k, v
:= range s.config { m[k] = v }`. -/
def copyLoop (src : List (String × TypedValue)) : List (String × TypedValue) :=
  src.foldl (fun m kv => mapSet m kv.1 kv.2) []

/-- `BaseSession.GetAll` at the heap level: allocates a fresh map, copies
every entry of the session's config into it, and returns a reference to
the fresh map. -/
def heapSessionGetAll (h : ConfigHeap) (ref : Nat) : ConfigHeap × Nat :=
  (h ++ [copyLoop (heapRead h ref)], h.length)

theorem mapSet_of_lookup_none {α : Type} (m : List (String × α)) (key : String) (val : α)
    (h : mapLookup m key = none) : mapSet m key val = m ++ [(key, val)] := by
  induction m with
  | nil => rfl
  | cons p rest ih =>
      obtain ⟨k, v⟩ := p
      by_cases hk : k = key
      · simp [mapLookup, hk] at h
      · simp only [mapLookup, hk, if_neg, ite_false] at h
        simp [mapSet, hk, ih h]

theorem mapLookup_append_left {α : Type} (m m' : List (String × α)) (key : String)
    (h : mapLookup m key = none) : mapLookup (m ++ m') key = mapLookup m' key := by
  induction m with
  | nil => rfl
  | cons p rest ih =>
      obtain ⟨k, v⟩ := p
      by_cases hk : k = key
      · simp [mapLookup, hk] at h
      · simp only [mapLookup, hk, ite_false] at h
        simpa [mapLookup, hk] using ih h

theorem copyLoop_aux {α : Type} :
    ∀ (src acc : List (String × α)),
      (src.map Prod.fst).Nodup →
      (∀ p ∈ src, mapLookup acc p.1 = none) →
      src.foldl (fun m kv => mapSet m kv.1 kv.2) acc = acc ++ src := by
  intro src
  induction src with
  | nil => intro acc _ _; simp
  | cons p rest ih =>
      intro acc hnodup hfresh
      have hp : mapLookup acc p.1 = none := hfresh p (by simp)
      have hstep : (p :: rest).foldl (fun m kv => mapSet m kv.1 kv.2) acc =
          rest.foldl (fun m kv => mapSet m kv.1 kv.2) (mapSet acc p.1 p.2) := rfl
      rw [hstep, mapSet_of_lookup_none acc p.1 p.2 hp]
      have hcons : (p.1 :: rest.map Prod.fst).Nodup := by simpa using hnodup
      have hkey : p.1 ∉ rest.map Prod.fst := (List.nodup_cons.mp hcons).1
      have hnodup' : (rest.map Prod.fst).Nodup := (List.nodup_cons.mp hcons).2
      have hne : ∀ q ∈ rest, q.1 ≠ p.1 := by
        intro q hq hcontra
        exact hkey (hcontra ▸ List.mem_map_of_mem Prod.fst hq)
      have hfresh' : ∀ q ∈ rest, mapLookup (acc ++ [(p.1, p.2)]) q.1 = none := by
        intro q hq
        have h1 : mapLookup acc q.1 = none := hfresh q (List.mem_cons_of_mem p hq)
        rw [mapLookup_append_left acc _ q.1 h1]
        simp [mapLookup, Ne.symm (hne q hq)]
      rw [ih (acc ++ [(p.1, p.2)]) hnodup' hfresh']
      simp

theorem copyLoop_eq (src : List (String × TypedValue))
    (hnodup : (src.map Prod.fst).Nodup) : copyLoop src = src := by
  have := copyLoop_aux src [] hnodup (by intro p _; rfl)
  simpa [copyLoop] using this

theorem heapRead_write_ne (h : ConfigHeap) (r r' : Nat)
    (m : List (String × TypedValue)) (hne : r ≠ r') :
    heapRead (heapWrite h r m) r' = heapRead h r' := by
  simp only [heapRead, heapWrite]
  rw [List.getElem?_set_ne hne]

/-- An opentracing span context (the identifying part of a span). -/
structure SpanContext where
  ctxId : Nat
deriving DecidableEq, Repr

/-- An option passed to `StartSpan`; `childOf` is the causal ChildOf
reference, `tag` stands for any other option. -/
inductive StartSpanOption where
  | childOf (ref : SpanContext)
  | tag (k : String) (v : String)
deriving DecidableEq, Repr

/-- A started span as captured by a recording tracer: operation name, its
own span context, and the start options it was given (including any
ChildOf references). -/
structure Span where
  opName : String
  spanCtx : SpanContext
  refs : List StartSpanOption
deriving DecidableEq, Repr

/-- The base `context.Context`: an opaque payload (cancellation scope
identity) plus the active span it may carry. -/
structure GoContext where
  inner : Nat
  activeSpan : Option Span
deriving DecidableEq, Repr

/-- `opentracing.SpanFromContext`. -/
def spanFromContext (ctx : GoContext) : Option Span := ctx.activeSpan

/-- `opentracing.ContextWithSpan`. -/
def contextWithSpan (ctx : GoContext) (s : Span) : GoContext :=
  { ctx with activeSpan := some s }

/-- A tracer that records the options each started span was given (the
test tracer capturing span relationships). -/
structure Tracer where
  seed : Nat
deriving DecidableEq, Repr

/-- `Tracer.StartSpan`: starts a span with the given name and options. -/
def Tracer.startSpan (t : Tracer) (opName : String) (opts : List StartSpanOption) : Span :=
  { opName := opName, spanCtx := ⟨t.seed⟩, refs := opts }

/-- `sql.Context`: the query execution context. -/
structure Context where
  base : GoContext
  session : BaseSession
  pid : Nat
  tracer : Tracer

/-- `Context.Span`: appends a ChildOf reference to the options when the
base context carries an active span, starts the span, and returns it with
a child context whose base carries the new span. -/
def Context.Span (c : Context) (opName : String) (opts : List StartSpanOption) :
    Span × Context :=
  let parentSpan := spanFromContext c.base
  let opts2 :=
    match parentSpan with
    | some p => opts ++ [StartSpanOption.childOf p.spanCtx]
    | none => opts
  let span := c.tracer.startSpan opName opts2
  let ctx := contextWithSpan c.base span
  (span, { base := ctx, session := c.session, pid := c.pid, tracer := c.tracer })

/-- `Context.WithContext`: substitutes only the base context. -/
def Context.WithContext (c : Context) (ctx : GoContext) : Context :=
  { base := ctx, session := c.session, pid := c.pid, tracer := c.tracer }

/-- A backup engine implementation (opaque). -/
structure BackupEngine where
  engineId : Nat
deriving DecidableEq, Repr

/-- Vitess RPC error codes (the ones this layer mentions). -/
inductive VtCode where
  | OK
  | NOT_FOUND
deriving DecidableEq, Repr

/-- A vterrors error: code plus message. -/
structure VtError where
  code : VtCode
  msg : String
deriving DecidableEq, Repr

/-- The mutable package state of `mysqlctl`: the
`backup_engine_implementation` flag value and the `BackupEngineMap`
registry. -/
structure MysqlctlState where
  backupEngineImplementation : String
  backupEngineMap : List (String × BackupEngine)
deriving DecidableEq, Repr

/-- `GetBackupEngine`: looks up the registry under the flag's value;
returns the engine, or a nil engine with a NOT_FOUND error.  The state is
threaded to make visible that the function only reads it. -/
def GetBackupEngine (st : MysqlctlState) :
    (Option BackupEngine × Option VtError) × MysqlctlState :=
  match mapLookup st.backupEngineMap st.backupEngineImplementation with
  | some be => ((some be, none), st)
  | none =>
      ((none, some ⟨VtCode.NOT_FOUND, "no registered implementation of BackupEngine"⟩), st)

/-- A concrete resolved literal expression, used as evaluation input. -/
def litExpr (nm : Option String) (txt : String) (t : SqlType) (nl : Bool) (v : GoValue) :
    Expression :=
  { nameable := nm, stringRep := txt, typ := t, nullable := nl,
    eval := fun _ _ => Except.ok v }

/-- A concrete expression whose evaluation fails with the given message. -/
def errExpr (msg : String) : Expression :=
  { nameable := none, stringRep := msg, typ := SqlType.Null, nullable := true,
    eval := fun _ _ => Except.error msg }

/-- Claim C1 (code bug witness): for a Values operator with one
single-expression tuple, the loop inside Schema computes the one-column
schema with the expression's name, type and nullability, yet Schema
itself returns the empty (nil) schema — the computed column list is
unconditionally discarded, contradicting the claim that Schema returns
the columns derived from the first tuple. -/
theorem values_schema_discards_columns :
    Values.Schema ⟨[[litExpr (some "col1") "lit(1)" SqlType.Int64 false (GoValue.int64 1)]]⟩
        = [] ∧
      Values.computedSchema
          ⟨[[litExpr (some "col1") "lit(1)" SqlType.Int64 false (GoValue.int64 1)]]⟩
        = [⟨"col1", SqlType.Int64, false⟩] ∧
      ([] : List Column) ≠ [⟨"col1", SqlType.Int64, false⟩] := by
  refine ⟨rfl, rfl, by simp⟩

/-- Claim C2, counterexample: with a wrapped iterator that reports
end-of-data on every call, two successive Next calls each run the success
finalization — the span receives two finalization records, so
finalization is not guaranteed to run at most once for every call
sequence ending in exhaustion. -/
theorem spanIter_double_finalize :
    (runCalls (newSpanIter (fun _ => Outcome.eof)) [SCall.next, SCall.next]).span.records
        = [SpanRecord.success 0 0 0 0 0, SpanRecord.success 0 0 0 0 0] ∧
      ¬ (runCalls (newSpanIter (fun _ => Outcome.eof))
            [SCall.next, SCall.next]).span.records.length ≤ 1 := by
  exact ⟨rfl, by decide⟩

/-- Claim C2 (amended): for every traced row iterator and every sequence
of Next and Close calls in which no Next call is made after a Next has
returned end-of-data or an error or a Close has been issued, span
finalization (success or error variant) runs at most once. -/
theorem spanIter_finalize_at_most_once (script : Nat → Outcome) (calls : List SCall)
    (h : wfCalls script 0 false calls = true) :
    (runCalls (newSpanIter script) calls).span.records.length ≤ 1 :=
  runCalls_records_le calls (newSpanIter script) false h (by simp [newSpanIter])
    (fun _ => rfl) (fun _ => rfl)

/-- Witness for C2's amended theorem at a concrete script and call
sequence. -/
theorem spanIter_finalize_at_most_once_witness :
    wfCalls (fun _ => Outcome.eof) 0 false [SCall.next, SCall.close] = true ∧
      (runCalls (newSpanIter (fun _ => Outcome.eof))
          [SCall.next, SCall.close]).span.records.length ≤ 1 :=
  ⟨by decide, spanIter_finalize_at_most_once (fun _ => Outcome.eof)
    [SCall.next, SCall.close] (by decide)⟩

/-- Claim C3: a fresh session (NewSession or NewBaseSession) holds
exactly the seven default variables: auto_increment_increment = 1 typed
Int64, time_zone and system_time_zone = the local zone name typed Text,
max_allowed_packet = the maximum 32-bit signed value typed Int32,
sql_mode = "" typed Text, gtid_mode = 0 typed Int32, ndbinfo_version =
"" typed Text. -/
theorem session_default_variables (zone addr user : String) (id : Nat) :
    (NewSession zone addr user id).config = defaultSessionConfig zone ∧
    (NewBaseSession zone).config = defaultSessionConfig zone ∧
    mapLookup (defaultSessionConfig zone) "auto_increment_increment"
      = some ⟨SqlType.Int64, GoValue.int64 1⟩ ∧
    mapLookup (defaultSessionConfig zone) "time_zone"
      = some ⟨SqlType.Text, GoValue.str zone⟩ ∧
    mapLookup (defaultSessionConfig zone) "system_time_zone"
      = some ⟨SqlType.Text, GoValue.str zone⟩ ∧
    mapLookup (defaultSessionConfig zone) "max_allowed_packet"
      = some ⟨SqlType.Int32, GoValue.int 2147483647⟩ ∧
    mapLookup (defaultSessionConfig zone) "sql_mode"
      = some ⟨SqlType.Text, GoValue.str ""⟩ ∧
    mapLookup (defaultSessionConfig zone) "gtid_mode"
      = some ⟨SqlType.Int32, GoValue.int32 0⟩ ∧
    mapLookup (defaultSessionConfig zone) "ndbinfo_version"
      = some ⟨SqlType.Text, GoValue.str ""⟩ ∧
    (defaultSessionConfig zone).map Prod.fst =
      ["auto_increment_increment", "time_zone", "system_time_zone", "max_allowed_packet",
       "sql_mode", "gtid_mode", "ndbinfo_version"] := by
  refine ⟨rfl, rfl, ?_, ?_, ?_, ?_, ?_, ?_, ?_, rfl⟩ <;>
    simp [defaultSessionConfig, mapLookup]

/-- Claim C4: RowIter evaluates every expression of every tuple with no
input row; when all evaluations succeed it returns exactly one row per
tuple, in tuple order, holding the evaluated values, and when any
evaluation fails it returns the first evaluation error (in tuple order,
expression order) and no row set. -/
theorem values_rowiter_characterization (p : Values) (s : BaseSession) :
    Values.RowIter p s =
      match firstEvalError s p.ExpressionTuples with
      | some err => Except.error err
      | none => Except.ok (expectedRows p s) := by
  simpa [Values.RowIter, expectedRows] using evalTuples_eq s p.ExpressionTuples

/-- Claim C6: Get immediately after Set with the same key returns exactly
the stored (type, value) pair, and Get on an absent key returns the Null
type sentinel with a nil value. -/
theorem session_get_set (s : BaseSession) (key : String) (typ : SqlType) (value : GoValue)
    (s' : BaseSession) (key' : String) (habsent : mapLookup s'.config key' = none) :
    (BaseSession.Set s key typ value).Get key = (typ, value) ∧
      s'.Get key' = (SqlType.Null, GoValue.nil) := by
  constructor
  · simp [BaseSession.Set, BaseSession.Get, mapLookup_mapSet_self]
  · simp [BaseSession.Get, habsent]

/-- Witness for C6 at a concrete session, key and value. -/
theorem session_get_set_witness :
    (BaseSession.Set (NewBaseSession "UTC") "sql_mode" SqlType.Text
        (GoValue.str "STRICT")).Get "sql_mode" = (SqlType.Text, GoValue.str "STRICT") ∧
      (NewBaseSession "UTC").Get "nonexistent_variable" = (SqlType.Null, GoValue.nil) :=
  session_get_set (NewBaseSession "UTC") "sql_mode" SqlType.Text (GoValue.str "STRICT")
    (NewBaseSession "UTC") "nonexistent_variable" (by decide)

/-- Claim C7: GetAll returns a copy of the variable mapping — the
returned snapshot equals the session's configuration at the time of the
call, and a Set performed afterwards through the session's own reference
leaves the snapshot's contents unchanged. -/
theorem getall_snapshot (h : ConfigHeap) (ref : Nat) (key : String) (typ : SqlType)
    (value : GoValue) (href : ref < h.length)
    (hnodup : ((heapRead h ref).map Prod.fst).Nodup) :
    heapRead (heapSessionSet (heapSessionGetAll h ref).1 ref key typ value)
        (heapSessionGetAll h ref).2
      = heapRead (heapSessionGetAll h ref).1 (heapSessionGetAll h ref).2 ∧
    heapRead (heapSessionGetAll h ref).1 (heapSessionGetAll h ref).2 = heapRead h ref := by
  have hne : ref ≠ (heapSessionGetAll h ref).2 := by
    simp only [heapSessionGetAll]
    omega
  constructor
  · exact heapRead_write_ne _ ref _ _ hne
  · simp only [heapSessionGetAll, heapRead]
    rw [List.getElem?_concat_length]
    simpa using copyLoop_eq (heapRead h ref) hnodup

/-- Witness for C7 at a concrete one-session heap. -/
theorem getall_snapshot_witness :
    heapRead
        (heapSessionSet
          (heapSessionGetAll [[("sql_mode", ⟨SqlType.Text, GoValue.str ""⟩)]] 0).1 0
          "sql_mode" SqlType.Text (GoValue.str "STRICT"))
        (heapSessionGetAll [[("sql_mode", ⟨SqlType.Text, GoValue.str ""⟩)]] 0).2
      = heapRead (heapSessionGetAll [[("sql_mode", ⟨SqlType.Text, GoValue.str ""⟩)]] 0).1
          (heapSessionGetAll [[("sql_mode", ⟨SqlType.Text, GoValue.str ""⟩)]] 0).2 ∧
    heapRead (heapSessionGetAll [[("sql_mode", ⟨SqlType.Text, GoValue.str ""⟩)]] 0).1
        (heapSessionGetAll [[("sql_mode", ⟨SqlType.Text, GoValue.str ""⟩)]] 0).2
      = heapRead [[("sql_mode", ⟨SqlType.Text, GoValue.str ""⟩)]] 0 :=
  getall_snapshot [[("sql_mode", ⟨SqlType.Text, GoValue.str ""⟩)]] 0
    "sql_mode" SqlType.Text (GoValue.str "STRICT") (by decide) (by decide)

/-- Claim C8: Span starts the new span as a child (ChildOf reference) of
the base context's active span when one is present, and with no added
parent reference otherwise, and the returned child context's base carries
the newly started span. -/
theorem context_span_parentage (c : Context) (opName : String) (opts : List StartSpanOption) :
    (∀ p, spanFromContext c.base = some p →
        ((c.Span opName opts).1).refs = opts ++ [StartSpanOption.childOf p.spanCtx]) ∧
      (spanFromContext c.base = none → ((c.Span opName opts).1).refs = opts) ∧
      ((c.Span opName opts).2).base.activeSpan = some (c.Span opName opts).1 ∧
      ((c.Span opName opts).1).opName = opName := by
  refine ⟨?_, ?_, ?_, ?_⟩
  · intro p hp
    simp [Context.Span, hp, Tracer.startSpan]
  · intro hp
    simp [Context.Span, hp, Tracer.startSpan]
  · cases hsp : spanFromContext c.base <;>
      simp [Context.Span, contextWithSpan, hsp]
  · cases hsp : spanFromContext c.base <;>
      simp [Context.Span, hsp, Tracer.startSpan]

/-- Witness for C8 at a context whose base carries an active span and at
one whose base does not. -/
theorem context_span_parentage_witness :
    ((Context.mk ⟨7, some ⟨"parent", ⟨3⟩, []⟩⟩ (NewBaseSession "UTC") 1 ⟨5⟩).Span
          "op" []).1.refs = [StartSpanOption.childOf ⟨3⟩] ∧
      ((Context.mk ⟨7, none⟩ (NewBaseSession "UTC") 1 ⟨5⟩).Span "op" []).1.refs = [] :=
  ⟨(context_span_parentage (Context.mk ⟨7, some ⟨"parent", ⟨3⟩, []⟩⟩ (NewBaseSession "UTC") 1 ⟨5⟩)
      "op" []).1 ⟨"parent", ⟨3⟩, []⟩ rfl,
   (context_span_parentage (Context.mk ⟨7, none⟩ (NewBaseSession "UTC") 1 ⟨5⟩)
      "op" []).2.1 rfl⟩

/-- Claim C9: both Span and WithContext return a context with the same
Session, pid and tracer as the parent, differing only in the base context
(and the active span it carries); WithContext installs exactly the given
base context. -/
theorem context_derivation_preserves_identity (c : Context) (opName : String)
    (opts : List StartSpanOption) (ctx2 : GoContext) :
    ((c.Span opName opts).2.session = c.session ∧ (c.Span opName opts).2.pid = c.pid ∧
      (c.Span opName opts).2.tracer = c.tracer) ∧
    ((c.WithContext ctx2).session = c.session ∧ (c.WithContext ctx2).pid = c.pid ∧
      (c.WithContext ctx2).tracer = c.tracer ∧ (c.WithContext ctx2).base = ctx2) :=
  ⟨⟨rfl, rfl, rfl⟩, ⟨rfl, rfl, rfl, rfl⟩⟩

/-- Claim C10: GetBackupEngine returns the engine registered under the
flag's value, or a nil engine with a NOT_FOUND error when none is
registered, and in either case leaves the registry (and flag) unchanged. -/
theorem get_backup_engine_characterization (st : MysqlctlState) :
    (GetBackupEngine st).2 = st ∧
      (∀ be, mapLookup st.backupEngineMap st.backupEngineImplementation = some be →
        (GetBackupEngine st).1 = (some be, none)) ∧
      (mapLookup st.backupEngineMap st.backupEngineImplementation = none →
        (GetBackupEngine st).1 =
          (none, some ⟨VtCode.NOT_FOUND, "no registered implementation of BackupEngine"⟩)) := by
  refine ⟨?_, ?_, ?_⟩
  · cases hlook : mapLookup st.backupEngineMap st.backupEngineImplementation <;>
      simp [GetBackupEngine, hlook]
  · intro be hlook
    simp [GetBackupEngine, hlook]
  · intro hlook
    simp [GetBackupEngine, hlook]

/-- Witness for C10: a registry holding the builtin engine under the
flag's value, and one where the flag names an unregistered engine. -/
theorem get_backup_engine_witness :
    (GetBackupEngine ⟨"builtin", [("builtin", ⟨1⟩)]⟩).1 = (some ⟨1⟩, none) ∧
      (GetBackupEngine ⟨"xtrabackup", [("builtin", ⟨1⟩)]⟩).1 =
        (none, some ⟨VtCode.NOT_FOUND, "no registered implementation of BackupEngine"⟩) :=
  ⟨(get_backup_engine_characterization ⟨"builtin", [("builtin", ⟨1⟩)]⟩).2.1 ⟨1⟩ (by decide),
   (get_backup_engine_characterization ⟨"xtrabackup", [("builtin", ⟨1⟩)]⟩).2.2 (by decide)⟩

theorem newSpanIter_script (es : List (Row × Nat)) :
    ∀ k, k < es.length →
      (newSpanIter (scriptOfList es)).script ((newSpanIter (scriptOfList es)).pos + k)
        = scriptOfList es k := by
  intro k _
  simp [newSpanIter]

theorem driveAll_take (es : List (Row × Nat)) (k : Nat) (hk : k ≤ es.length) :
    driveAll (newSpanIter (scriptOfList es)) k
      = stepAll (newSpanIter (scriptOfList es)) (es.take k) := by
  have hlen : (es.take k).length = k := by
    simp [List.length_take, Nat.min_eq_left hk]
  have hscr : ∀ j, j < (es.take k).length →
      (newSpanIter (scriptOfList es)).script ((newSpanIter (scriptOfList es)).pos + j)
        = scriptOfList (es.take k) j := by
    intro j hj
    rw [hlen] at hj
    have h1 := newSpanIter_script es j (Nat.lt_of_lt_of_le hj hk)
    have h2 : scriptOfList (es.take k) j = scriptOfList es j := by
      simp only [scriptOfList, List.getElem?_take, hj, if_true]
    rw [h2]
    exact h1
  have := drive_rows (es.take k) (newSpanIter (scriptOfList es)) hscr
  rw [hlen] at this
  exact this

theorem sumFold_concat (t : Nat) (l : List (Row × Nat)) (p : Row × Nat) :
    sumFold t (l ++ [p]) = sumFold t l + p.2 := by
  simp [sumFold, List.foldl_append]

theorem minFold_all_le (es : List (Row × Nat)) (hpos : ∀ p ∈ es, 0 < p.2) :
    ∀ p ∈ es, minFold 0 es ≤ p.2 := by
  cases es with
  | nil => simp
  | cons p rest =>
      have hp : 0 < p.2 := hpos p (by simp)
      have hrest : ∀ q ∈ rest, 0 < q.2 := fun q hq => hpos q (List.mem_cons_of_mem p hq)
      obtain ⟨h1, h2, _⟩ := minFold_bounds rest p.2 hp hrest
      intro q hq
      rcases List.mem_cons.mp hq with h | h
      · subst h
        rw [minFold_zero_cons]
        exact h1
      · rw [minFold_zero_cons]
        exact h2 q h

/-- Claim C5, counterexample: wrapping an iterator that yields three rows
with elapsed times 5, 0 and 100 then end-of-data.  Because an elapsed
time of zero makes the `min == 0` branch treat min as uninitialized
again, the finalized span reports rows = 3, total = 105, max = 100,
min = 100 and avg = 35, so the reported min exceeds the reported average
and the claimed `min <= avg` fails. -/
theorem spanIter_stats_counterexample :
    (driveAll
        (newSpanIter
          (scriptOfList
            [([GoValue.int64 1], 5), ([GoValue.int64 2], 0), ([GoValue.int64 3], 100)]))
        4).span.records
      = [SpanRecord.success 3 105 100 100 35] ∧
    ¬ ((100 : Nat) ≤ 35) := by
  exact ⟨rfl, by decide⟩

/-- Claim C5 (amended with: every per-row elapsed time is positive): for
an iterator yielding the rows of `es` then end-of-data, each successful
Next updates count and total before returning that row; driving to
exhaustion finalizes the span with rows = N, total = the sum of the
per-row elapsed times, the folded max and min, and avg = total/N when
N > 0 and zero otherwise; and the reported min and max bracket the
reported average. -/
theorem spanIter_stats (es : List (Row × Nat)) (hpos : ∀ p ∈ es, 0 < p.2) :
    (∀ k, k < es.length →
        ((driveAll (newSpanIter (scriptOfList es)) k).next).1.count = k + 1 ∧
        ((driveAll (newSpanIter (scriptOfList es)) k).next).1.total
          = sumFold 0 (es.take (k + 1)) ∧
        ((driveAll (newSpanIter (scriptOfList es)) k).next).2
          = (match es[k]? with
             | some pr => NextResult.row pr.1
             | none => NextResult.eof)) ∧
    (driveAll (newSpanIter (scriptOfList es)) (es.length + 1)).span.records
      = [SpanRecord.success es.length (sumFold 0 es) (maxFold 0 es) (minFold 0 es)
          (if 0 < es.length then sumFold 0 es / es.length else 0)] ∧
    (0 < es.length →
      minFold 0 es ≤ sumFold 0 es / es.length ∧
      sumFold 0 es / es.length ≤ maxFold 0 es) := by
  refine ⟨?_, ?_, ?_⟩
  · intro k hk
    have hpr : es[k]? = some es[k] := List.getElem?_eq_getElem hk
    rw [driveAll_take es k (Nat.le_of_lt hk)]
    have hscript : (stepAll (newSpanIter (scriptOfList es)) (es.take k)).script
        = scriptOfList es := rfl
    have hpos' : (stepAll (newSpanIter (scriptOfList es)) (es.take k)).pos = k := by
      simp [stepAll, newSpanIter, List.length_take, Nat.min_eq_left (Nat.le_of_lt hk)]
    have houtcome : (stepAll (newSpanIter (scriptOfList es)) (es.take k)).script
        ((stepAll (newSpanIter (scriptOfList es)) (es.take k)).pos)
        = Outcome.row (es[k]).1 (es[k]).2 := by
      rw [hscript, hpos']
      simp [scriptOfList, hpr]
    have hcount : (stepAll (newSpanIter (scriptOfList es)) (es.take k)).count = k := by
      simp [stepAll, newSpanIter, List.length_take, Nat.min_eq_left (Nat.le_of_lt hk)]
    have htotal : (stepAll (newSpanIter (scriptOfList es)) (es.take k)).total
        = sumFold 0 (es.take k) := rfl
    have htake : es.take (k + 1) = es.take k ++ [es[k]] := by
      rw [List.take_succ, hpr]
      rfl
    refine ⟨?_, ?_, ?_⟩
    · simp only [SpanIter.next, houtcome]
      rw [updateTimings_count]
      simp [hcount]
    · simp only [SpanIter.next, houtcome]
      rw [updateTimings_total]
      simp only [htake, sumFold_concat]
      rw [htotal]
    · simp only [SpanIter.next, houtcome, hpr]
  · have hscr := newSpanIter_script es
    have heof : (newSpanIter (scriptOfList es)).script
        ((newSpanIter (scriptOfList es)).pos + es.length) = Outcome.eof := by
      simp [newSpanIter, scriptOfList, List.getElem?_eq_none (Nat.le_refl es.length)]
    rw [drive_rows_eof es (newSpanIter (scriptOfList es)) hscr heof]
    simp [SpanIter.finish, stepAll, newSpanIter, sumFold, maxFold, minFold]
  · intro hlen
    constructor
    · rw [Nat.le_div_iff_mul_le hlen]
      have := sumFold_lower es (minFold 0 es) (minFold_all_le es hpos) 0
      simpa using this
    · refine Nat.div_le_of_le_mul ?_
      have := sumFold_upper es (maxFold 0 es) (fun q hq => (maxFold_bounds es 0).2 q hq) 0
      simpa [Nat.mul_comm] using this

/-- Witness for C5's amended theorem at two rows with elapsed times 2 and
4: the span reports rows = 2, total = 6, max = 4, min = 2, avg = 3. -/
theorem spanIter_stats_witness :
    ((driveAll (newSpanIter (scriptOfList [([GoValue.int64 1], 2), ([GoValue.int64 2], 4)]))
          3).span).records
      = [SpanRecord.success 2 6 4 2 3] := by
  have h := (spanIter_stats [([GoValue.int64 1], 2), ([GoValue.int64 2], 4)]
    (by decide)).2.1
  exact h
